import Mathlib

/-!
Verification of the GmailSync scripts (gmail_utils.py, gmail_sender_counter.py,
gmail-labeler.py, gmail_archiver.py) against their specification.

Network interaction is embedded shallowly: the outcome of each remote call is
a parameter of the model (a function from an attempt index, message id or page
index to an outcome), and each modelled operation additionally reports how
many batch executions and per-item requests it issued, so that claims about
the number of network calls and about the sequence of retry delays can be
stated and proved.
-/

namespace GmailSync

/-- An HTTP error raised by the remote API: a response status plus an opaque
identity field, so that a theorem can state that the very same error object
is re-raised. -/
structure HttpErr where
  status : Nat
  reason : String
deriving DecidableEq, Repr

/-- Outcome of one batch execute invocation. -/
inductive ExecOutcome where
| success
| httpError (e : HttpErr)
deriving DecidableEq, Repr

/-- The statuses treated as retriable by execute_batch_with_backoff
(gmail_utils.py line 121): rate-limit errors 403 and 429 and server errors
500 and 503. -/
def retriableStatuses : List Nat := [403, 429, 500, 503]

/-- Result of a run of execute_batch_with_backoff: whether it returned
normally or re-raised an HttpErr, how many times it invoked execute on the
batch, and the successive delays it slept between attempts. -/
structure BackoffRun where
  result : Except HttpErr Unit
  executes : Nat
  sleeps : List ℚ
deriving Repr

/-- The retry loop of execute_batch_with_backoff (gmail_utils.py lines
115-133), starting at loop index attempt with the given number of loop
iterations remaining.  The batch is modelled by the sequence of outcomes of
its successive execute invocations. -/
def backoffAux (outcomes : Nat → ExecOutcome) (max_retries : Nat)
    (initial_delay backoff_factor : ℚ) : Nat → Nat → BackoffRun
| _, 0 => ⟨Except.ok (), 0, []⟩
| attempt, remaining + 1 =>
  match outcomes attempt with
  | ExecOutcome.success => ⟨Except.ok (), 1, []⟩
  | ExecOutcome.httpError e =>
    if e.status ∈ retriableStatuses then
      if attempt + 1 < max_retries then
        let wait_time := initial_delay * backoff_factor ^ attempt
        let r := backoffAux outcomes max_retries initial_delay backoff_factor
          (attempt + 1) remaining
        ⟨r.result, r.executes + 1, wait_time :: r.sleeps⟩
      else
        ⟨Except.error e, 1, []⟩
    else
      ⟨Except.error e, 1, []⟩

/-- Model of execute_batch_with_backoff from gmail_utils.py (lines 105-133).
The source default arguments are max_retries = 5, initial_delay = 1.0,
backoff_factor = 2.0; theorems about the defaults pass 5, 1 and 2 here. -/
def execute_batch_with_backoff (outcomes : Nat → ExecOutcome)
    (max_retries : Nat) (initial_delay backoff_factor : ℚ) : BackoffRun :=
  backoffAux outcomes max_retries initial_delay backoff_factor 0 max_retries

theorem backoffAux_success (outcomes : Nat → ExecOutcome)
    (d f : ℚ) (mr : Nat) :
    ∀ k a : Nat, a + k < mr →
    (∀ i, i < k → ∃ e, outcomes (a + i) = ExecOutcome.httpError e ∧
      e.status ∈ retriableStatuses) →
    outcomes (a + k) = ExecOutcome.success →
    backoffAux outcomes mr d f a (mr - a) =
      ⟨Except.ok (), k + 1, (List.range k).map (fun j => d * f ^ (a + j))⟩ := by
  intro k
  induction k with
  | zero =>
    intro a hlt _ hsucc
    obtain ⟨m, hm⟩ : ∃ m, mr - a = m + 1 := ⟨mr - a - 1, by omega⟩
    rw [hm]
    simp only [Nat.add_zero] at hsucc
    simp [backoffAux, hsucc]
  | succ k ih =>
    intro a hlt hfail hsucc
    obtain ⟨e0, he0, hs0⟩ := hfail 0 (by omega)
    simp only [Nat.add_zero] at he0
    obtain ⟨m, hm⟩ : ∃ m, mr - a = m + 1 := ⟨mr - a - 1, by omega⟩
    have hm2 : mr - (a + 1) = m := by omega
    have hrec := ih (a + 1) (by omega)
      (fun i hi => by
        have := hfail (i + 1) (by omega)
        simpa [Nat.add_comm, Nat.add_assoc, Nat.add_left_comm] using this)
      (by
        have : a + 1 + k = a + (k + 1) := by omega
        rw [this]; exact hsucc)
    rw [hm]
    rw [hm2] at hrec
    simp only [backoffAux, he0, hs0, if_true, show a + 1 < mr from by omega, hrec]
    simp only [BackoffRun.mk.injEq, true_and]
    have hmap : List.map (fun j => d * f ^ (a + 1 + j)) (List.range k)
        = List.map ((fun j => d * f ^ (a + j)) ∘ Nat.succ) (List.range k) := by
      apply List.map_congr_left
      intro j _
      simp only [Function.comp_apply, Nat.succ_eq_add_one]
      rw [show a + 1 + j = a + (j + 1) from by omega]
    rw [hmap, List.range_succ_eq_map, List.map_cons, List.map_map]
    simp

theorem backoffAux_exhaust (outcomes : Nat → ExecOutcome)
    (d f : ℚ) (mr : Nat) :
    ∀ k a : Nat, a + k + 1 = mr →
    (∀ i, i ≤ k → ∃ e, outcomes (a + i) = ExecOutcome.httpError e ∧
      e.status ∈ retriableStatuses) →
    ∀ e, outcomes (a + k) = ExecOutcome.httpError e →
    backoffAux outcomes mr d f a (mr - a) =
      ⟨Except.error e, k + 1, (List.range k).map (fun j => d * f ^ (a + j))⟩ := by
  intro k
  induction k with
  | zero =>
    intro a hmr hfail e he
    obtain ⟨m, hm⟩ : ∃ m, mr - a = m + 1 := ⟨mr - a - 1, by omega⟩
    rw [hm]
    simp only [Nat.add_zero] at he
    obtain ⟨e0, he0, hs0⟩ := hfail 0 (Nat.le_refl 0)
    simp only [Nat.add_zero] at he0
    rw [he] at he0
    injection he0 with h0
    subst h0
    simp [backoffAux, he, hs0, show ¬ (a + 1 < mr) by omega]
  | succ k ih =>
    intro a hmr hfail e he
    obtain ⟨e0, he0, hs0⟩ := hfail 0 (by omega)
    simp only [Nat.add_zero] at he0
    obtain ⟨m, hm⟩ : ∃ m, mr - a = m + 1 := ⟨mr - a - 1, by omega⟩
    have hm2 : mr - (a + 1) = m := by omega
    have hrec := ih (a + 1) (by omega)
      (fun i hi => by
        have := hfail (i + 1) (by omega)
        simpa [Nat.add_comm, Nat.add_assoc, Nat.add_left_comm] using this)
      e (by
        have : a + 1 + k = a + (k + 1) := by omega
        rw [this]; exact he)
    rw [hm]
    rw [hm2] at hrec
    simp only [backoffAux, he0, hs0, if_true, show a + 1 < mr from by omega, hrec]
    simp only [BackoffRun.mk.injEq, true_and]
    have hmap : List.map (fun j => d * f ^ (a + 1 + j)) (List.range k)
        = List.map ((fun j => d * f ^ (a + j)) ∘ Nat.succ) (List.range k) := by
      apply List.map_congr_left
      intro j _
      simp only [Function.comp_apply, Nat.succ_eq_add_one]
      rw [show a + 1 + j = a + (j + 1) from by omega]
    rw [hmap, List.range_succ_eq_map, List.map_cons, List.map_map]
    simp

theorem chain_doubling (n : Nat) :
    List.Chain' (fun a b : ℚ => b = 2 * a)
      ((List.range n).map (fun j => (1:ℚ) * 2 ^ j)) := by
  rw [List.chain'_map]
  cases n with
  | zero => simp
  | succ m =>
    rw [List.chain'_range_succ]
    intro j _
    rw [one_mul, one_mul, pow_succ, mul_comm]

theorem backoffAux_nonretriable (outcomes : Nat → ExecOutcome)
    (d f : ℚ) (mr a m : Nat) (e : HttpErr)
    (he : outcomes a = ExecOutcome.httpError e)
    (hs : e.status ∉ retriableStatuses) :
    backoffAux outcomes mr d f a (m + 1) = ⟨Except.error e, 1, []⟩ := by
  simp [backoffAux, he, hs]

/-- C1: for execute_batch_with_backoff with its default parameters
(max_retries = 5, initial_delay = 1.0, backoff_factor = 2.0): for every N
with 1 ≤ N ≤ max_retries, if execute raises an error with a retriable status
on each of the first N - 1 invocations and succeeds on the Nth, the function
returns normally after exactly N execute invocations and the delays slept are
1, 2, 4, ... (each double the previous, starting at 1s); if all max_retries
invocations raise retriable-status errors, the original error of the last
attempt is propagated unmodified. -/
theorem C1_backoff_retry_behaviour :
    (∀ (outcomes : Nat → ExecOutcome) (N : Nat), 1 ≤ N → N ≤ 5 →
      (∀ i, i < N - 1 → ∃ e, outcomes i = ExecOutcome.httpError e ∧
        e.status ∈ retriableStatuses) →
      outcomes (N - 1) = ExecOutcome.success →
      (execute_batch_with_backoff outcomes 5 1 2).result = Except.ok () ∧
      (execute_batch_with_backoff outcomes 5 1 2).executes = N ∧
      (execute_batch_with_backoff outcomes 5 1 2).sleeps =
        (List.range (N - 1)).map (fun j => (1:ℚ) * 2 ^ j) ∧
      List.Chain' (fun x y => y = 2 * x)
        (execute_batch_with_backoff outcomes 5 1 2).sleeps ∧
      (2 ≤ N →
        (execute_batch_with_backoff outcomes 5 1 2).sleeps.head? = some 1)) ∧
    (∀ (outcomes : Nat → ExecOutcome),
      (∀ i, i < 5 → ∃ e, outcomes i = ExecOutcome.httpError e ∧
        e.status ∈ retriableStatuses) →
      ∀ e, outcomes 4 = ExecOutcome.httpError e →
      (execute_batch_with_backoff outcomes 5 1 2).result = Except.error e ∧
      (execute_batch_with_backoff outcomes 5 1 2).executes = 5) := by
  constructor
  · intro outcomes N hN1 hN5 hfail hsucc
    have h := backoffAux_success outcomes 1 2 5 (N - 1) 0 (by omega)
      (fun i hi => by simpa using hfail i (by omega))
      (by simpa using hsucc)
    have hx : execute_batch_with_backoff outcomes 5 1 2 =
        ⟨Except.ok (), (N - 1) + 1,
          (List.range (N - 1)).map (fun j => (1:ℚ) * 2 ^ j)⟩ := by
      unfold execute_batch_with_backoff
      simpa using h
    rw [hx]
    refine ⟨rfl, by simp; omega, rfl, chain_doubling (N - 1), ?_⟩
    intro h2
    obtain ⟨k, hk⟩ : ∃ k, N - 1 = k + 1 := ⟨N - 2, by omega⟩
    show ((List.range (N - 1)).map (fun j => (1:ℚ) * 2 ^ j)).head? = some 1
    rw [hk, List.range_succ_eq_map]
    simp
  · intro outcomes hfail e he
    have h := backoffAux_exhaust outcomes 1 2 5 4 0 (by omega)
      (fun i hi => by simpa using hfail i (by omega))
      e (by simpa using he)
    have hx : execute_batch_with_backoff outcomes 5 1 2 =
        ⟨Except.error e, 5, (List.range 4).map (fun j => (1:ℚ) * 2 ^ j)⟩ := by
      unfold execute_batch_with_backoff
      simpa using h
    rw [hx]
    exact ⟨rfl, rfl⟩

/-- Concrete retry scenario for the C1 witness: the first two execute
invocations hit a 429 rate-limit error, the third succeeds. -/
def c1Outcomes : Nat → ExecOutcome := fun i =>
  if i < 2 then ExecOutcome.httpError ⟨429, "rate limited"⟩
  else ExecOutcome.success

/-- Concrete exhaustion scenario for the C1 witness: every execute invocation
hits a 503 server error. -/
def c1OutcomesBad : Nat → ExecOutcome :=
  fun _ => ExecOutcome.httpError ⟨503, "unavailable"⟩

theorem C1_backoff_retry_behaviour_witness :
    (execute_batch_with_backoff c1Outcomes 5 1 2).result = Except.ok () ∧
    (execute_batch_with_backoff c1Outcomes 5 1 2).executes = 3 ∧
    (execute_batch_with_backoff c1OutcomesBad 5 1 2).result =
      Except.error ⟨503, "unavailable"⟩ ∧
    (execute_batch_with_backoff c1OutcomesBad 5 1 2).executes = 5 := by
  have h1 := C1_backoff_retry_behaviour.1 c1Outcomes 3 (by omega) (by omega)
    (fun i hi => ⟨⟨429, "rate limited"⟩, by
      unfold c1Outcomes
      rw [if_pos (by omega : i < 2)], by decide⟩)
    (by decide)
  have h2 := C1_backoff_retry_behaviour.2 c1OutcomesBad
    (fun i _ => ⟨⟨503, "unavailable"⟩, rfl, by decide⟩)
    ⟨503, "unavailable"⟩ rfl
  exact ⟨h1.1, h1.2.1, h2.1, h2.2⟩

/-- C2: for every HttpError whose response status is not one of the transient
statuses 403, 429, 500, 503, execute_batch_with_backoff re-raises that very
error after a single execute invocation, with no retry and no sleep. -/
theorem C2_nonretriable_immediate (outcomes : Nat → ExecOutcome) (e : HttpErr)
    (h0 : outcomes 0 = ExecOutcome.httpError e)
    (hs : e.status ∉ retriableStatuses) :
    execute_batch_with_backoff outcomes 5 1 2 = ⟨Except.error e, 1, []⟩ := by
  unfold execute_batch_with_backoff
  exact backoffAux_nonretriable outcomes 1 2 5 0 4 e h0 hs

theorem C2_nonretriable_immediate_witness :
    execute_batch_with_backoff
        (fun _ => ExecOutcome.httpError ⟨404, "not found"⟩) 5 1 2 =
      ⟨Except.error ⟨404, "not found"⟩, 1, []⟩ :=
  C2_nonretriable_immediate _ ⟨404, "not found"⟩ rfl (by decide)

/-! Sender and domain extraction, gmail_sender_counter.py lines 17-31 and
gmail-labeler.py lines 89-105.  Header strings are modelled as lists of
characters; the isinstance check of the Python code only rejects non-string
input, which the embedding excludes by typing. -/

/-- Characters removed by the Python str.strip method: ASCII whitespace. -/
def isPySpace (c : Char) : Bool :=
  c = ' ' ∨ c = '\t' ∨ c = '\n' ∨ c = '\r' ∨ c = '\x0b' ∨ c = '\x0c'

/-- Python sender.strip(): remove leading and trailing whitespace. -/
def pyStrip (s : List Char) : List Char :=
  ((s.dropWhile isPySpace).reverse.dropWhile isPySpace).reverse

/-- Python sender.lower(), acting per character. -/
def pyLower (s : List Char) : List Char :=
  s.map Char.toLower

/-- The regex search both scripts perform on the From header: re.search finds
the leftmost literal < that is followed by at least one character other
than > and then by a >, and group 1 is that run of non-> characters, ended
by the first following >. -/
def findBracketed : List Char → Option (List Char)
| [] => none
| c :: rest =>
  if c = '<' ∧ rest.takeWhile (fun d => d != '>') ≠ [] ∧
      rest.dropWhile (fun d => d != '>') ≠ [] then
    some (rest.takeWhile (fun d => d != '>'))
  else
    findBracketed rest

/-- The address step shared by extract_email_from_sender
(gmail_sender_counter.py lines 22-26) and extract_domain_from_sender
(gmail-labeler.py lines 95-100), where both compute the local variable
email: the bracketed address when the regex matches, else the whole sender
stripped of surrounding whitespace. -/
def addressStep (sender : List Char) : List Char :=
  match findBracketed sender with
  | some email => email
  | none => pyStrip sender

/-- Python email.split(sep) for a single-character separator: the runs of
characters between occurrences of sep.  The result is never empty. -/
def pySplit (sep : Char) : List Char → List (List Char)
| [] => [[]]
| c :: rest =>
  match pySplit sep rest with
  | [] => [[]]
  | h :: t => if c = sep then [] :: h :: t else (c :: h) :: t

/-- The substring following the last occurrence of sep, or the whole string
when sep does not occur.  This renders the wording of the specification for
domain extraction; the code instead takes the last element of a split, and
the two are proved to agree. -/
def afterLastSep (sep : Char) : List Char → List Char
| [] => []
| c :: rest =>
  if sep ∈ rest then afterLastSep sep rest
  else if c = sep then rest else c :: rest

/-- Model of extract_email_from_sender (gmail_sender_counter.py lines
17-31). -/
def extract_email_from_sender (sender : List Char) : List Char :=
  if '@' ∈ addressStep sender ∧
      '.' ∈ (pySplit '@' (addressStep sender)).getLastD [] then
    pyLower (addressStep sender)
  else pyLower sender

/-- Model of extract_domain_from_sender (gmail-labeler.py lines 89-105). -/
def extract_domain_from_sender (sender : List Char) : Option (List Char) :=
  if '@' ∈ addressStep sender then
    some ((pySplit '@' (addressStep sender)).getLastD [])
  else none

theorem pySplit_ne_nil (sep : Char) (s : List Char) : pySplit sep s ≠ [] := by
  cases s with
  | nil => simp [pySplit]
  | cons c rest =>
    simp only [pySplit]
    cases pySplit sep rest with
    | nil => simp
    | cons h0 t => by_cases hc : c = sep <;> simp [hc]

theorem pySplit_not_mem (sep : Char) (s : List Char) (h : sep ∉ s) :
    pySplit sep s = [s] := by
  induction s with
  | nil => rfl
  | cons c rest ih =>
    simp only [List.mem_cons, not_or] at h
    simp only [pySplit, ih h.2]
    rw [if_neg (Ne.symm h.1)]

theorem pySplit_two_of_mem (sep : Char) (s : List Char) (h : sep ∈ s) :
    ∃ x y l, pySplit sep s = x :: y :: l := by
  induction s with
  | nil => cases h
  | cons c rest ih =>
    by_cases hc : c = sep
    · subst hc
      cases hr : pySplit c rest with
      | nil => exact absurd hr (pySplit_ne_nil c rest)
      | cons h0 t =>
        refine ⟨[], h0, t, ?_⟩
        simp [pySplit, hr]
    · have hmem : sep ∈ rest := by
        rcases List.mem_cons.mp h with h1 | h2
        · exact absurd h1.symm hc
        · exact h2
      obtain ⟨x, y, l, hxy⟩ := ih hmem
      refine ⟨c :: x, y, l, ?_⟩
      simp [pySplit, hxy, hc]

theorem pySplit_getLastD (sep : Char) (s : List Char) :
    (pySplit sep s).getLastD [] = afterLastSep sep s := by
  induction s with
  | nil => rfl
  | cons c rest ih =>
    by_cases hmem : sep ∈ rest
    · obtain ⟨x, y, l, hxy⟩ := pySplit_two_of_mem sep rest hmem
      rw [show afterLastSep sep (c :: rest) = afterLastSep sep rest from by
        simp [afterLastSep, hmem]]
      rw [← ih, hxy]
      by_cases hc : c = sep
      · subst hc
        simp only [pySplit, hxy, if_pos rfl]
        simp [List.getLastD_cons]
      · simp only [pySplit, hxy, if_neg hc]
        simp [List.getLastD_cons]
    · have hsplit := pySplit_not_mem sep rest hmem
      by_cases hc : c = sep
      · subst hc
        simp only [pySplit, hsplit, if_pos rfl]
        simp [afterLastSep, hmem, List.getLastD_cons]
      · simp only [pySplit, hsplit, if_neg hc]
        simp [afterLastSep, hmem, hc, List.getLastD_cons]

theorem findBracketed_none (s : List Char) (h : '<' ∉ s) :
    findBracketed s = none := by
  induction s with
  | nil => rfl
  | cons c rest ih =>
    simp only [List.mem_cons, not_or] at h
    simp only [findBracketed]
    rw [if_neg (by
      rintro ⟨hc, -, -⟩
      exact h.1 hc.symm)]
    exact ih h.2

/-- C3 counterexample: the claim says that for a sender containing an
angle-bracket-delimited address, extract_email_from_sender returns exactly
the bracketed content; on the input Jane <JANE@EXAMPLE.COM> the bracket
regex matches with content JANE@EXAMPLE.COM, yet the function returns the
lower-cased jane@example.com, not the bracketed content. -/
theorem C3_counterexample :
    findBracketed "Jane <JANE@EXAMPLE.COM>".toList =
      some "JANE@EXAMPLE.COM".toList ∧
    extract_email_from_sender "Jane <JANE@EXAMPLE.COM>".toList =
      "jane@example.com".toList ∧
    extract_email_from_sender "Jane <JANE@EXAMPLE.COM>".toList ≠
      "JANE@EXAMPLE.COM".toList := by
  refine ⟨by decide, by decide, by decide⟩

/-- C3 amended: the address step shared by both functions returns exactly
the bracketed content when the bracket regex matches and the
whitespace-trimmed whole string when the sender contains no angle bracket;
extract_email_from_sender then returns that address lower-cased when the
address contains an @ with a dot somewhere after the last @, and otherwise
returns the whole sender lower-cased. -/
theorem C3_address_extraction_amended :
    (∀ sender email, findBracketed sender = some email →
      addressStep sender = email) ∧
    (∀ sender, '<' ∉ sender → addressStep sender = pyStrip sender) ∧
    (∀ sender, extract_email_from_sender sender =
      if '@' ∈ addressStep sender ∧
          '.' ∈ afterLastSep '@' (addressStep sender) then
        pyLower (addressStep sender)
      else pyLower sender) := by
  refine ⟨?_, ?_, ?_⟩
  · intro sender email h
    unfold addressStep
    rw [h]
  · intro sender h
    unfold addressStep
    rw [findBracketed_none sender h]
  · intro sender
    unfold extract_email_from_sender
    rw [pySplit_getLastD]

theorem C3_address_extraction_amended_witness :
    addressStep "Jane Doe <jane@example.com>".toList =
      "jane@example.com".toList ∧
    addressStep "  jane@example.com  ".toList = "jane@example.com".toList := by
  constructor
  · exact C3_address_extraction_amended.1 "Jane Doe <jane@example.com>".toList
      "jane@example.com".toList (by decide)
  · have h := C3_address_extraction_amended.2.1 "  jane@example.com  ".toList
      (by decide)
    rw [h]
    decide

/-- C4: for every input, extract_domain_from_sender returns the substring of
the extracted address following the last @ when the address contains an @,
and none when the address contains no @. -/
theorem C4_domain_after_last_at :
    (∀ sender, '@' ∈ addressStep sender →
      extract_domain_from_sender sender =
        some (afterLastSep '@' (addressStep sender))) ∧
    (∀ sender, '@' ∉ addressStep sender →
      extract_domain_from_sender sender = none) := by
  constructor
  · intro sender hmem
    unfold extract_domain_from_sender
    rw [if_pos hmem, pySplit_getLastD]
  · intro sender hmem
    unfold extract_domain_from_sender
    rw [if_neg hmem]

theorem C4_domain_after_last_at_witness :
    extract_domain_from_sender "Jane Doe <jane@sub.example.com>".toList =
      some "sub.example.com".toList ∧
    extract_domain_from_sender "janedoe".toList = none := by
  constructor
  · have h := C4_domain_after_last_at.1 "Jane Doe <jane@sub.example.com>".toList
      (by decide)
    rw [h]
    decide
  · exact C4_domain_after_last_at.2 "janedoe".toList (by decide)

/-! Label management, gmail-labeler.py lines 107-125.  The pre-fetched label
name-to-id mapping is modelled as an association list in which the first
matching entry wins, and dict insertion prepends a fresh entry. -/

/-- Dict lookup in the name-to-id mapping. -/
def lookupLabel (name : String) : List (String × String) → Option String
| [] => none
| (n, i) :: rest => if n = name then some i else lookupLabel name rest

/-- Result of a call to ensure_label_exists: the returned id (or none after
a create failure), the mapping after the call, and how many label-create
API calls were issued. -/
structure EnsureResult where
  result : Option String
  labelsMap : List (String × String)
  createCalls : Nat
deriving Repr, DecidableEq

/-- Model of ensure_label_exists (gmail-labeler.py lines 107-125).  The
create argument is the outcome the labels create API call would have, were
it issued: the id of the created label, or the HttpError it raises. -/
def ensure_label_exists (create : Except HttpErr String) (label_name : String)
    (all_labels_map : List (String × String)) : EnsureResult :=
  match lookupLabel label_name all_labels_map with
  | some i => ⟨some i, all_labels_map, 0⟩
  | none =>
    match create with
    | Except.ok i => ⟨some i, (label_name, i) :: all_labels_map, 1⟩
    | Except.error _ => ⟨none, all_labels_map, 1⟩

/-- C5: ensure_label_exists is idempotent: when the mapping produced by a
first call contains the name, a second call performs zero create API calls,
returns the id stored in the mapping, and leaves the mapping unchanged. -/
theorem C5_ensure_label_idempotent (create create2 : Except HttpErr String)
    (label_name : String) (m : List (String × String)) (i : String)
    (h : lookupLabel label_name
      (ensure_label_exists create label_name m).labelsMap = some i) :
    ensure_label_exists create2 label_name
        (ensure_label_exists create label_name m).labelsMap =
      ⟨some i, (ensure_label_exists create label_name m).labelsMap, 0⟩ := by
  generalize (ensure_label_exists create label_name m).labelsMap = M at h ⊢
  simp [ensure_label_exists, h]

theorem C5_ensure_label_idempotent_witness :
    ensure_label_exists (Except.ok "Label_8") "unsubscribe"
        (ensure_label_exists (Except.ok "Label_7") "unsubscribe" []).labelsMap =
      ⟨some "Label_7",
        (ensure_label_exists (Except.ok "Label_7") "unsubscribe" []).labelsMap,
        0⟩ :=
  C5_ensure_label_idempotent (Except.ok "Label_7") (Except.ok "Label_8")
    "unsubscribe" [] "Label_7" (by decide)

/-- C10: ensure_label_exists is atomic on failure: for a name not in the
mapping, a failing create call makes it return none with the mapping
completely unchanged (and one create call issued), and the mapping gains an
entry for the name exactly when a non-none id is returned. -/
theorem C10_ensure_label_atomic (create : Except HttpErr String)
    (label_name : String) (m : List (String × String))
    (habs : lookupLabel label_name m = none) :
    (∀ e, create = Except.error e →
      ensure_label_exists create label_name m = ⟨none, m, 1⟩) ∧
    ((lookupLabel label_name
        (ensure_label_exists create label_name m).labelsMap).isSome ↔
      (ensure_label_exists create label_name m).result.isSome) := by
  constructor
  · intro e he
    subst he
    simp [ensure_label_exists, habs]
  · cases create with
    | ok i => simp [ensure_label_exists, habs, lookupLabel]
    | error e => simp [ensure_label_exists, habs]

theorem C10_ensure_label_atomic_witness :
    ensure_label_exists (Except.error ⟨500, "backend error"⟩)
        "unsubscribe/example.com" [] =
      ⟨none, [], 1⟩ :=
  (C10_ensure_label_atomic (Except.error ⟨500, "backend error"⟩)
    "unsubscribe/example.com" [] (by decide)).1 ⟨500, "backend error"⟩ rfl

/-! Batched operations, gmail_sender_counter.py lines 65-99 and
gmail-labeler.py lines 127-156. -/

/-- The chunking performed by iterating range(0, len(ids), n) and slicing
n ids at a time: successive chunks of at most n identifiers. -/
def chunksOf {α : Type} (n : Nat) : List α → List (List α)
| [] => []
| x :: xs => (x :: xs.take (n - 1)) :: chunksOf n (xs.drop (n - 1))
termination_by l => l.length
decreasing_by simp [List.length_drop]; omega

/-- What a run of fetch_senders_in_batches did: the accumulated sender list
it returns, the number of per-item get requests added to batches, and the
number of batch executions. -/
structure FetchTrace where
  senders : List (List Char)
  requests : Nat
  batches : Nat
deriving Repr

/-- The process_message_callback of fetch_senders_in_batches over one chunk
(gmail_sender_counter.py lines 71-82): for each id, on a per-item exception
nothing is recorded; on a response, the first From header is taken, and the
extracted email is appended when both the header value and the extraction
are non-empty.  A whole-batch HttpError is caught and only logged by the
source (line 96), so it is modelled through the per-item outcomes. -/
def chunkSenders (resp : Nat → Except HttpErr (List (String × String)))
    (chunk : List Nat) : List (List Char) :=
  chunk.filterMap (fun message_id =>
    match resp message_id with
    | Except.error _ => none
    | Except.ok headers =>
      match (headers.find? (fun h => h.1 == "From")).map (fun h => h.2) with
      | none => none
      | some v =>
        if v ≠ "" then
          if extract_email_from_sender v.toList ≠ [] then
            some (extract_email_from_sender v.toList)
          else none
        else none)

/-- Model of fetch_senders_in_batches (gmail_sender_counter.py lines 65-99):
one batch per chunk of 25 message ids, one get request added per id. -/
def fetch_senders_in_batches
    (resp : Nat → Except HttpErr (List (String × String)))
    (message_ids : List Nat) : FetchTrace :=
  { senders := ((chunksOf 25 message_ids).map (chunkSenders resp)).flatten
  , requests := ((chunksOf 25 message_ids).map List.length).sum
  , batches := (chunksOf 25 message_ids).length }

/-- What a run of apply_label_to_emails_batch did: the modify requests it
added (message id paired with the label id each request adds) and the
number of batch executions. -/
structure ApplyTrace where
  modifyRequests : List (Nat × String)
  batches : Nat
deriving Repr, DecidableEq

/-- Model of apply_label_to_emails_batch (gmail-labeler.py lines 127-156):
early return on an empty id list, else one batch per chunk of 25 ids with
one modify request per id. -/
def apply_label_to_emails_batch (message_ids : List Nat) (label_id : String) :
    ApplyTrace :=
  if message_ids.isEmpty then ⟨[], 0⟩
  else
    { modifyRequests :=
        ((chunksOf 25 message_ids).map (fun chunk =>
          chunk.map (fun message_id => (message_id, label_id)))).flatten
    , batches := (chunksOf 25 message_ids).length }

/-- C6: on the empty identifier list, the batched detail fetch and the
batched label application construct and execute zero batches, add zero
per-item requests, and return an empty result. -/
theorem C6_empty_no_calls :
    (∀ resp, fetch_senders_in_batches resp [] = ⟨[], 0, 0⟩) ∧
    (∀ label_id, apply_label_to_emails_batch [] label_id = ⟨[], 0⟩) := by
  constructor
  · intro resp
    simp [fetch_senders_in_batches, chunksOf]
  · intro label_id
    simp [apply_label_to_emails_batch]

/-! Paginated listing, gmail_sender_counter.py lines 33-63 and
gmail_archiver.py lines 55-82.  A page of the listing is either the message
ids it returns or the HttpError its execute raises; after the last element
of the page list, list_next returns no further request. -/

/-- Python truthiness of the limit argument: None and 0 are falsy. -/
def limitTruthy : Option Nat → Bool
| none => false
| some l => l != 0

/-- The pagination loop shared by get_all_message_ids and
find_messages_in_date_range: accumulate each page, return the accumulator
when an HttpError is caught, break early when a truthy limit has been
reached. -/
def listLoop (limit : Option Nat) :
    List (Except HttpErr (List Nat)) → List Nat → List Nat
| [], acc => acc
| p :: rest, acc =>
  match p with
  | Except.error _ => acc
  | Except.ok msgs =>
    if limitTruthy limit ∧ limit.getD 0 ≤ (acc ++ msgs).length then acc ++ msgs
    else listLoop limit rest (acc ++ msgs)

/-- Model of get_all_message_ids (gmail_sender_counter.py lines 33-63),
including the final truncation to the limit when the limit is truthy. -/
def get_all_message_ids (pages : List (Except HttpErr (List Nat)))
    (limit : Option Nat) : List Nat :=
  if limitTruthy limit then (listLoop limit pages []).take (limit.getD 0)
  else listLoop limit pages []

/-- Python date.replace applied by the archiver, a single character replaced
by a single character. -/
def dashToSlash (s : List Char) : List Char :=
  s.map (fun c => if c = '-' then '/' else c)

/-- Model of find_messages_in_date_range (gmail_archiver.py lines 55-82):
the query string it builds and the ids its pagination loop accumulates. -/
def find_messages_in_date_range (start_date end_date : List Char)
    (pages : List (Except HttpErr (List Nat))) : List Char × List Nat :=
  ("after:".toList ++ dashToSlash start_date ++ " before:".toList ++
     dashToSlash end_date,
   listLoop none pages [])

theorem listLoop_error (e : HttpErr) (rest : List (Except HttpErr (List Nat))) :
    ∀ (goods : List (List Nat)) (acc : List Nat),
    listLoop none (goods.map Except.ok ++ Except.error e :: rest) acc =
      acc ++ goods.flatten := by
  intro goods
  induction goods with
  | nil =>
    intro acc
    simp [listLoop]
  | cons g gs ih =>
    intro acc
    simp only [List.map_cons, List.cons_append, listLoop]
    rw [if_neg (by simp [limitTruthy])]
    rw [show (List.map Except.ok gs).append (Except.error e :: rest) =
      List.map Except.ok gs ++ Except.error e :: rest from rfl]
    rw [ih (acc ++ g)]
    simp

/-- C7: when a page request raises an HttpError, both listing functions
catch it, stop paginating, and return exactly the identifiers accumulated
from the pages fetched before the error; no exception escapes (the model
functions are total and return the accumulated list). -/
theorem C7_page_error_truncates :
    ∀ (goods : List (List Nat)) (e : HttpErr)
      (rest : List (Except HttpErr (List Nat))) (sd ed : List Char),
    (find_messages_in_date_range sd ed
        (goods.map Except.ok ++ Except.error e :: rest)).2 = goods.flatten ∧
    get_all_message_ids (goods.map Except.ok ++ Except.error e :: rest) none =
      goods.flatten := by
  intro goods e rest sd ed
  constructor
  · show listLoop none _ [] = _
    rw [listLoop_error]
    simp
  · unfold get_all_message_ids
    rw [if_neg (by simp [limitTruthy])]
    rw [listLoop_error]
    simp

/-- C8: the archiver builds its search query by replacing every dash by a
slash in each date and joining as after:start before:end; in particular the
dates 2024-01-01 and 2024-02-01 produce exactly the query
after:2024/01/01 before:2024/02/01. -/
theorem C8_query_format :
    (∀ (sd ed : List Char) (pages : List (Except HttpErr (List Nat))),
      (find_messages_in_date_range sd ed pages).1 =
        "after:".toList ++ dashToSlash sd ++ " before:".toList ++
          dashToSlash ed) ∧
    (∀ pages, (find_messages_in_date_range "2024-01-01".toList
        "2024-02-01".toList pages).1 =
      "after:2024/01/01 before:2024/02/01".toList) := by
  constructor
  · intro sd ed pages
    rfl
  · intro pages
    show "after:".toList ++ dashToSlash "2024-01-01".toList ++
      " before:".toList ++ dashToSlash "2024-02-01".toList = _
    decide

/-! Message body extraction, gmail_archiver.py lines 18-53.  A payload
carries its mimeType, the data field of its body when present, and its list
of sub-parts when the parts key is present.  The urlsafe base64 plus utf-8
decoding that the source applies to every data field is library code,
passed to the model as the decode parameter and applied uniformly. -/

mutual
inductive Payload where
| mk (mimeType : String) (bodyData : Option String) (parts : Option PayloadList)
inductive PayloadList where
| nil
| cons (p : Payload) (rest : PayloadList)
end

/-- The parts key of a payload, when present. -/
def Payload.partsOf : Payload → Option PayloadList
| .mk _ _ parts => parts

/-- The first loop of get_message_body (gmail_archiver.py lines 26-28): the
data of the first text/plain part that has data. -/
def findPlainData : PayloadList → Option String
| .nil => none
| .cons (.mk m (some dat) _) rest =>
  if m = "text/plain" then some dat else findPlainData rest
| .cons (.mk _ none _) rest => findPlainData rest

/-- The third loop of get_message_body (gmail_archiver.py lines 38-42): the
data of the first text/html part that has data. -/
def findHtmlData : PayloadList → Option String
| .nil => none
| .cons (.mk m (some dat) _) rest =>
  if m = "text/html" then some dat else findHtmlData rest
| .cons (.mk _ none _) rest => findHtmlData rest

/-- Modelled from the spec: the text fragments of an HTML string, the runs
of characters outside tags.  This stands for the bs4 BeautifulSoup parse
the archiver delegates to, which is not part of this repository; the spec
describes the result as the HTML stripped of tags. -/
def soupSplit (inTag : Bool) (acc : List Char) : List Char → List (List Char)
| [] => if inTag then [] else [acc.reverse]
| c :: rest =>
  if inTag then
    if c = '>' then soupSplit false [] rest else soupSplit true acc rest
  else
    if c = '<' then acc.reverse :: soupSplit true [] rest
    else soupSplit false (c :: acc) rest

/-- Modelled from the spec: soup.get_text with newline separator and
strip=True — the HTML stripped of tags, each text fragment stripped of
surrounding whitespace, empty fragments dropped, and the fragments joined
by newlines. -/
def soupGetText (html : String) : String :=
  ⟨List.intercalate ['\n']
    (((soupSplit false [] html.toList).map pyStrip).filter (fun f => f ≠ []))⟩

mutual
/-- Model of get_message_body (gmail_archiver.py lines 18-53). -/
def get_message_body (decode : String → String) : Payload → String
| .mk mime bodyData parts =>
  match parts with
  | some ps =>
    match findPlainData ps with
    | some dat => decode dat
    | none =>
      match nestedBody decode ps with
      | some b => b
      | none =>
        match findHtmlData ps with
        | some dat => soupGetText (decode dat)
        | none => ""
  | none =>
    match bodyData with
    | some dat =>
      if mime = "text/plain" then decode dat
      else if mime = "text/html" then soupGetText (decode dat)
      else ""
    | none => ""
/-- The second loop of get_message_body (gmail_archiver.py lines 31-35):
recurse into each part that itself has a parts key and return the first
non-empty nested body, if any. -/
def nestedBody (decode : String → String) : PayloadList → Option String
| .nil => none
| .cons p rest =>
  match p.partsOf with
  | some _ =>
    if get_message_body decode p ≠ "" then some (get_message_body decode p)
    else nestedBody decode rest
  | none => nestedBody decode rest
end

/-- Whether a part satisfies the condition of the first loop: mimeType
text/plain and a data field. -/
def isPlainWithData : Payload → Bool
| .mk m (some _) _ => m == "text/plain"
| .mk _ none _ => false

mutual
/-- No text/plain part with data occurs among the parts below this payload,
at any depth. -/
def noPlainBelow : Payload → Bool
| .mk _ _ none => true
| .mk _ _ (some ps) => noPlainList ps
/-- No text/plain part with data occurs in this list of parts, at any
depth. -/
def noPlainList : PayloadList → Bool
| .nil => true
| .cons p rest => !(isPlainWithData p) && noPlainBelow p && noPlainList rest
end

/-- The data of this part itself when it is text/html with data. -/
def htmlSelf : Payload → List String
| .mk m (some d) _ => if m = "text/html" then [d] else []
| .mk _ none _ => []

mutual
/-- The data fields of all text/html parts with data below this payload. -/
def htmlBelow : Payload → List String
| .mk _ _ none => []
| .mk _ _ (some ps) => htmlList ps
/-- The data fields of all text/html parts with data in this list of parts,
at any depth, in document order. -/
def htmlList : PayloadList → List String
| .nil => []
| .cons p rest => htmlSelf p ++ htmlBelow p ++ htmlList rest
end

mutual
/-- Size of a payload tree, for strong induction. -/
def Payload.psize : Payload → Nat
| .mk _ _ none => 1
| .mk _ _ (some ps) => 1 + PayloadList.lsize ps
/-- Size of a list of payloads, for strong induction. -/
def PayloadList.lsize : PayloadList → Nat
| .nil => 0
| .cons p rest => 1 + Payload.psize p + PayloadList.lsize rest
end

theorem findPlainData_cons_none (p : Payload) (rest : PayloadList)
    (h : isPlainWithData p = false) :
    findPlainData (.cons p rest) = findPlainData rest := by
  cases p with
  | mk m d parts =>
    cases d with
    | none => rfl
    | some dat =>
      simp only [isPlainWithData, beq_eq_false_iff_ne, ne_eq] at h
      simp [findPlainData, h]

theorem findPlainData_of_noPlain :
    ∀ ps, noPlainList ps = true → findPlainData ps = none
| .nil, _ => rfl
| .cons p rest, h => by
  simp only [noPlainList, Bool.and_eq_true, Bool.not_eq_true'] at h
  rw [findPlainData_cons_none p rest h.1.1]
  exact findPlainData_of_noPlain rest h.2

theorem findHtmlData_mem :
    ∀ (ps : PayloadList) (d : String),
    findHtmlData ps = some d → d ∈ htmlList ps
| .nil, d, h => by cases h
| .cons (.mk m none parts) rest, d, h => by
  simp only [findHtmlData] at h
  simp only [htmlList, List.mem_append]
  exact Or.inr (findHtmlData_mem rest d h)
| .cons (.mk m (some dd) parts) rest, d, h => by
  by_cases hm : m = "text/html"
  · simp only [findHtmlData, if_pos hm] at h
    injection h with h
    subst h
    simp [htmlList, htmlSelf, hm]
  · simp only [findHtmlData, if_neg hm] at h
    simp only [htmlList, List.mem_append]
    exact Or.inr (findHtmlData_mem rest d h)

theorem findHtmlData_cons_none (p : Payload) (rest : PayloadList)
    (h : findHtmlData (.cons p rest) = none) :
    htmlSelf p = [] ∧ findHtmlData rest = none := by
  cases p with
  | mk m dat parts =>
    cases dat with
    | none => exact ⟨rfl, h⟩
    | some dd =>
      by_cases hm : m = "text/html"
      · simp [findHtmlData, hm] at h
      · simp only [findHtmlData, if_neg hm] at h
        exact ⟨by simp [htmlSelf, hm], h⟩

theorem mem_map_append3_right {α β : Type} (f : α → β) (x : β)
    (l1 l2 l3 : List α) (h : x ∈ l3.map f) :
    x ∈ (l1 ++ l2 ++ l3).map f := by
  simp only [List.map_append, List.mem_append]
  exact Or.inr h

theorem mem_map_append3_mid {α β : Type} (f : α → β) (x : β)
    (l1 l2 l3 : List α) (h : x ∈ l2.map f) :
    x ∈ (l1 ++ l2 ++ l3).map f := by
  simp only [List.map_append, List.mem_append]
  exact Or.inl (Or.inr h)

theorem body_html_invariant (decode : String → String) : ∀ n : Nat,
    (∀ (m : String) (bd : Option String) (ps : PayloadList),
      (Payload.mk m bd (some ps)).psize ≤ n → noPlainList ps = true →
      ((htmlList ps = [] ∧
          get_message_body decode (Payload.mk m bd (some ps)) = "") ∨
        get_message_body decode (Payload.mk m bd (some ps)) ∈
          (htmlList ps).map (fun d => soupGetText (decode d)))) ∧
    (∀ ps : PayloadList, ps.lsize ≤ n → noPlainList ps = true →
      ((∀ b, nestedBody decode ps = some b →
          b ∈ (htmlList ps).map (fun d => soupGetText (decode d))) ∧
        (nestedBody decode ps = none → findHtmlData ps = none →
          htmlList ps = [] ∨
            "" ∈ (htmlList ps).map (fun d => soupGetText (decode d))))) := by
  intro n
  induction n with
  | zero =>
    constructor
    · intro m bd ps hsize
      exfalso
      simp only [Payload.psize] at hsize
      omega
    · intro ps hsize hnp
      cases ps with
      | nil =>
        constructor
        · intro b hb
          simp [nestedBody] at hb
        · intro _ _
          left
          simp [htmlList]
      | cons p rest =>
        exfalso
        simp only [PayloadList.lsize] at hsize
        omega
  | succ n ih =>
    constructor
    · intro m bd ps hsize hnp
      have hls : ps.lsize ≤ n := by
        simp only [Payload.psize] at hsize
        omega
      have hL := ih.2 ps hls hnp
      have hfp : findPlainData ps = none := findPlainData_of_noPlain ps hnp
      cases hnb : nestedBody decode ps with
      | some b =>
        right
        have hb := hL.1 b hnb
        have heq : get_message_body decode (Payload.mk m bd (some ps)) = b := by
          simp [get_message_body, hfp, hnb]
        rw [heq]
        exact hb
      | none =>
        cases hfh : findHtmlData ps with
        | some dat =>
          right
          have heq : get_message_body decode (Payload.mk m bd (some ps)) =
              soupGetText (decode dat) := by
            simp [get_message_body, hfp, hnb, hfh]
          rw [heq]
          exact List.mem_map_of_mem _ (findHtmlData_mem ps dat hfh)
        | none =>
          have hempty :
              get_message_body decode (Payload.mk m bd (some ps)) = "" := by
            simp [get_message_body, hfp, hnb, hfh]
          rcases hL.2 hnb hfh with h1 | h2
          · exact Or.inl ⟨h1, hempty⟩
          · right
            rw [hempty]
            exact h2
    · intro ps hsize hnp
      cases ps with
      | nil =>
        constructor
        · intro b hb
          simp [nestedBody] at hb
        · intro _ _
          left
          simp [htmlList]
      | cons p rest =>
        have hnp' := hnp
        simp only [noPlainList, Bool.and_eq_true, Bool.not_eq_true'] at hnp'
        obtain ⟨⟨hnp1, hnp2⟩, hnp3⟩ := hnp'
        have hsp : p.psize ≤ n := by
          simp only [PayloadList.lsize] at hsize
          omega
        have hsr : rest.lsize ≤ n := by
          simp only [PayloadList.lsize] at hsize
          omega
        have hLrest := ih.2 rest hsr hnp3
        cases p with
        | mk pm pd pparts =>
          cases pparts with
          | none =>
            have hnb_eq :
                nestedBody decode (.cons (.mk pm pd none) rest) =
                  nestedBody decode rest := by
              simp [nestedBody, Payload.partsOf]
            refine ⟨?_, ?_⟩
            · intro b hb
              rw [hnb_eq] at hb
              simp only [htmlList]
              exact mem_map_append3_right _ _ _ _ _ (hLrest.1 b hb)
            · intro hnone hfh
              rw [hnb_eq] at hnone
              obtain ⟨hself, hfr⟩ := findHtmlData_cons_none _ _ hfh
              rcases hLrest.2 hnone hfr with h1 | h2
              · left
                simp [htmlList, htmlBelow, hself, h1]
              · right
                simp only [htmlList]
                exact mem_map_append3_right _ _ _ _ _ h2
          | some ps2 =>
            have hnp2' : noPlainList ps2 = true := by
              simpa [noPlainBelow] using hnp2
            have hQ := ih.1 pm pd ps2 hsp hnp2'
            by_cases hbe :
                get_message_body decode (.mk pm pd (some ps2)) = ""
            · have hnb_eq :
                  nestedBody decode (.cons (.mk pm pd (some ps2)) rest) =
                    nestedBody decode rest := by
                simp [nestedBody, Payload.partsOf, hbe]
              refine ⟨?_, ?_⟩
              · intro b hb
                rw [hnb_eq] at hb
                simp only [htmlList]
                exact mem_map_append3_right _ _ _ _ _ (hLrest.1 b hb)
              · intro hnone hfh
                rw [hnb_eq] at hnone
                obtain ⟨hself, hfr⟩ := findHtmlData_cons_none _ _ hfh
                rcases hQ with ⟨hq1, _⟩ | hq
                · rcases hLrest.2 hnone hfr with h1 | h2
                  · left
                    simp [htmlList, htmlBelow, hself, hq1, h1]
                  · right
                    simp only [htmlList]
                    exact mem_map_append3_right _ _ _ _ _ h2
                · right
                  rw [hbe] at hq
                  simp only [htmlList]
                  exact mem_map_append3_mid _ _ _ _ _
                    (by simpa [htmlBelow] using hq)
            · have hnb_eq :
                  nestedBody decode (.cons (.mk pm pd (some ps2)) rest) =
                    some (get_message_body decode (.mk pm pd (some ps2))) := by
                simp [nestedBody, Payload.partsOf, hbe]
              refine ⟨?_, ?_⟩
              · intro b hb
                rw [hnb_eq] at hb
                injection hb with hb'
                subst hb'
                rcases hQ with ⟨_, hq2⟩ | hq
                · exact absurd hq2 hbe
                · simp only [htmlList]
                  exact mem_map_append3_mid _ _ _ _ _
                    (by simpa [htmlBelow] using hq)
              · intro hnone _
                rw [hnb_eq] at hnone
                cases hnone

/-- C9: for a multipart payload whose parts contain (at any depth) no
text/plain part with data but at least one text/html part with data,
get_message_body returns the tag-stripped newline-joined text of the
decoded content of one of the contained text/html parts; and when a
text/plain part with data is present at top level, its decoded content is
returned in preference to any HTML. -/
theorem C9_body_extraction :
    (∀ (decode : String → String) (m : String) (bd : Option String)
        (ps : PayloadList),
      noPlainList ps = true → htmlList ps ≠ [] →
      get_message_body decode (Payload.mk m bd (some ps)) ∈
        (htmlList ps).map (fun d => soupGetText (decode d))) ∧
    (∀ (decode : String → String) (m : String) (bd : Option String)
        (ps : PayloadList) (dat : String),
      findPlainData ps = some dat →
      get_message_body decode (Payload.mk m bd (some ps)) = decode dat) := by
  constructor
  · intro decode m bd ps hnp hne
    rcases (body_html_invariant decode (Payload.mk m bd (some ps)).psize).1
        m bd ps (Nat.le_refl _) hnp with ⟨h1, _⟩ | h2
    · exact absurd h1 hne
    · exact h2
  · intro decode m bd ps dat h
    simp [get_message_body, h]

theorem C9_body_extraction_witness :
    get_message_body id (Payload.mk "multipart/alternative" none
        (some (PayloadList.cons
          (Payload.mk "text/html" (some "<b>Hi</b> there") none)
          PayloadList.nil))) ∈ ["Hi\nthere"] ∧
    get_message_body id (Payload.mk "multipart/mixed" none
        (some (PayloadList.cons
          (Payload.mk "text/plain" (some "hello body") none)
          PayloadList.nil))) = "hello body" := by
  constructor
  · have h := C9_body_extraction.1 id "multipart/alternative" none
      (PayloadList.cons (Payload.mk "text/html" (some "<b>Hi</b> there") none)
        PayloadList.nil)
      (by simp [noPlainList, noPlainBelow, isPlainWithData])
      (by simp [htmlList, htmlSelf, htmlBelow])
    have hl : htmlList (PayloadList.cons
        (Payload.mk "text/html" (some "<b>Hi</b> there") none)
        PayloadList.nil) = ["<b>Hi</b> there"] := by
      simp [htmlList, htmlSelf, htmlBelow]
    rw [hl] at h
    simp only [List.map_cons, List.map_nil, id] at h
    have hs : soupGetText "<b>Hi</b> there" = "Hi\nthere" := by decide
    rwa [hs] at h
  · exact C9_body_extraction.2 id "multipart/mixed" none _ "hello body"
      (by simp [findPlainData])

end GmailSync
